import Mathlib

/-!
Verification of the Connect-Four engine shared by `connect4.py` (console)
and `connectk4.py` (canvas).  The `Connect4` class is embedded as the
structure `Game` together with pure state-passing functions `drop`,
`reset`, `is_draw` and the win detector `winning_span`.  Board cells hold
an `Int`: `-1` is empty, `0` and `1` are the two players, exactly as in
the Python source.  The unbounded `while` loops of the source are embedded
as fueled recursions with fuel that provably never runs out on the
positions the engine uses them at.
-/

abbrev Cell := Int

abbrev Board := List (List Cell)

/-- Read `board[r][c]`; every engine read is guarded in-bounds, the
default `-1` is never observed by the engine. -/
def getCell (b : Board) (r c : Int) : Cell :=
  (b.getD r.toNat []).getD c.toNat (-1)

/-- Write `board[r][c] = v` (used only at in-bounds positions). -/
def setCell (b : Board) (r c : Int) (v : Cell) : Board :=
  b.set r.toNat ((b.getD r.toNat []).set c.toNat v)

/-- The observable state of the `Connect4` class. -/
structure Game where
  rows : Nat
  cols : Nat
  board : Board
  current : Cell
  winner : Option Cell
  move_count : Nat
  win_line : Option ((Int × Int) × (Int × Int))
deriving DecidableEq, Repr

/-- `Connect4.__init__`. -/
def initGame : Game :=
  { rows := 6, cols := 7
    board := List.replicate 6 (List.replicate 7 (-1))
    current := 0, winner := none, move_count := 0, win_line := none }

/-- `Connect4.reset`. -/
def reset (g : Game) : Game :=
  { g with board := List.replicate g.rows (List.replicate g.cols (-1))
           current := 0, winner := none, move_count := 0, win_line := none }

/-- The guard of the `while` loop in `count_and_last`:
`0 <= rr < rows and 0 <= cc < cols and board[rr][cc] == player`. -/
def okCell (g : Game) (p : Cell) (r c : Int) : Prop :=
  0 ≤ r ∧ r < (g.rows : Int) ∧ 0 ≤ c ∧ c < (g.cols : Int) ∧ getCell g.board r c = p

instance (g : Game) (p : Cell) (r c : Int) : Decidable (okCell g p r c) := by
  unfold okCell; infer_instance

/-- The `while` loop of `count_and_last`, walking from `(rr, cc)` in
direction `(dr, dc)` while the guard holds, carrying the count `n` and
the last matching coordinate `(lr, lc)`. -/
def countWalk (g : Game) (p : Cell) (dr dc : Int) :
    Nat → Int → Int → Nat → Int → Int → Nat × Int × Int
  | 0, _, _, n, lr, lc => (n, lr, lc)
  | fuel + 1, rr, cc, n, lr, lc =>
    if okCell g p rr cc then
      countWalk g p dr dc fuel (rr + dr) (cc + dc) (n + 1) rr cc
    else (n, lr, lc)

/-- `count_and_last(dr, dc)` of `_winning_span`, for center `(r, c)` and
player `p`.  The walk from an in-bounds center in any of the eight used
unit directions takes at most `max rows cols` steps, so fuel
`rows * cols + 1` never runs out there. -/
def count_and_last (g : Game) (p : Cell) (r c dr dc : Int) : Nat × Int × Int :=
  countWalk g p dr dc (g.rows * g.cols + 1) (r + dr) (c + dc) 0 r c

/-- One iteration of the direction loop of `_winning_span`: both walks and
the `1 + f_count + b_count >= 4` test. -/
def checkDir (g : Game) (p : Cell) (r c dr dc : Int) :
    Option ((Int × Int) × (Int × Int)) :=
  let f := count_and_last g p r c dr dc
  let b := count_and_last g p r c (-dr) (-dc)
  if 1 + f.1 + b.1 ≥ 4 then some ((b.2.1, b.2.2), (f.2.1, f.2.2)) else none

/-- `Connect4._winning_span`: directions tried in the fixed order
`(0,1), (1,0), (1,1), (1,-1)`; the first qualifying one is returned. -/
def winning_span (g : Game) (r c : Int) : Option ((Int × Int) × (Int × Int)) :=
  let player := getCell g.board r c
  if player = -1 then none
  else
    match checkDir g player r c 0 1 with
    | some s => some s
    | none =>
      match checkDir g player r c 1 0 with
      | some s => some s
      | none =>
        match checkDir g player r c 1 1 with
        | some s => some s
        | none => checkDir g player r c 1 (-1)

/-- The `while` loop of `drop` scanning from the bottom row upward:
`while row >= 0 and board[row][col] != -1: row -= 1`.  Started at
`rows - 1` with fuel `rows + 1` the fuel never runs out. -/
def findRowAux (g : Game) (col : Int) : Nat → Int → Int
  | 0, row => row
  | fuel + 1, row =>
    if 0 ≤ row ∧ getCell g.board row col ≠ -1 then
      findRowAux g col fuel (row - 1)
    else row

/-- The landing row computed by `drop` after its guards pass. -/
def dropRow (g : Game) (col : Int) : Int :=
  findRowAux g col (g.rows + 1) ((g.rows : Int) - 1)

/-- The engine state after `drop` has placed the disc and incremented
`move_count`, before win evaluation. -/
def dropMid (g : Game) (col : Int) : Game :=
  { g with board := setCell g.board (dropRow g col) col g.current
           move_count := g.move_count + 1 }

/-- `Connect4.drop`: returns the Python method's return value (`None`
for a rejected move, the landing row otherwise) together with the state
after the call. -/
def drop (g : Game) (col : Int) : Option Int × Game :=
  if g.winner ≠ none then (none, g)
  else if ¬(0 ≤ col ∧ col < (g.cols : Int)) ∨ getCell g.board 0 col ≠ -1 then
    (none, g)
  else
    match winning_span (dropMid g col) (dropRow g col) col with
    | some span =>
      (some (dropRow g col),
        { dropMid g col with winner := some g.current, win_line := some span })
    | none =>
      (some (dropRow g col), { dropMid g col with current := 1 - g.current })

/-- `Connect4.is_draw`. -/
def is_draw (g : Game) : Bool :=
  decide (g.winner = none) && decide (g.move_count = g.rows * g.cols)

/-- Run a list of `drop` calls, keeping only the final state. -/
def execDrops (g : Game) (cols : List Int) : Game :=
  cols.foldl (fun g c => (drop g c).2) g

/-!
The second copy of the engine, translated from the `Connect4` class of
`connectk4.py`.  The class has the same fields, so it is embedded over the
same `Game` structure, with its own operation functions.
-/

namespace K4

/-- `connectk4.Connect4.__init__`. -/
def initGame : Game :=
  { rows := 6, cols := 7
    board := List.replicate 6 (List.replicate 7 (-1))
    current := 0, winner := none, move_count := 0, win_line := none }

/-- `connectk4.Connect4.reset`. -/
def reset (g : Game) : Game :=
  { g with board := List.replicate g.rows (List.replicate g.cols (-1))
           current := 0, winner := none, move_count := 0, win_line := none }

/-- The `while` loop of `connectk4`'s `count_and_last`. -/
def countWalk (g : Game) (p : Cell) (dr dc : Int) :
    Nat → Int → Int → Nat → Int → Int → Nat × Int × Int
  | 0, _, _, n, lr, lc => (n, lr, lc)
  | fuel + 1, rr, cc, n, lr, lc =>
    if okCell g p rr cc then
      countWalk g p dr dc fuel (rr + dr) (cc + dc) (n + 1) rr cc
    else (n, lr, lc)

/-- `connectk4`'s `count_and_last(dr, dc)`. -/
def count_and_last (g : Game) (p : Cell) (r c dr dc : Int) : Nat × Int × Int :=
  countWalk g p dr dc (g.rows * g.cols + 1) (r + dr) (c + dc) 0 r c

/-- One direction of `connectk4.Connect4._winning_span`, with its
`total`, `start`, `end` locals. -/
def checkDir (g : Game) (p : Cell) (r c dr dc : Int) :
    Option ((Int × Int) × (Int × Int)) :=
  let f := count_and_last g p r c dr dc
  let b := count_and_last g p r c (-dr) (-dc)
  let total := 1 + f.1 + b.1
  if total ≥ 4 then
    let start := (b.2.1, b.2.2)
    let stop := (f.2.1, f.2.2)
    some (start, stop)
  else none

/-- `connectk4.Connect4._winning_span`. -/
def winning_span (g : Game) (r c : Int) : Option ((Int × Int) × (Int × Int)) :=
  let player := getCell g.board r c
  if player = -1 then none
  else
    match checkDir g player r c 0 1 with
    | some s => some s
    | none =>
      match checkDir g player r c 1 0 with
      | some s => some s
      | none =>
        match checkDir g player r c 1 1 with
        | some s => some s
        | none => checkDir g player r c 1 (-1)

/-- The bottom-up scan of `connectk4.Connect4.drop`. -/
def findRowAux (g : Game) (col : Int) : Nat → Int → Int
  | 0, row => row
  | fuel + 1, row =>
    if 0 ≤ row ∧ getCell g.board row col ≠ -1 then
      findRowAux g col fuel (row - 1)
    else row

/-- Landing row of `connectk4.Connect4.drop`. -/
def dropRow (g : Game) (col : Int) : Int :=
  findRowAux g col (g.rows + 1) ((g.rows : Int) - 1)

/-- State after placement, before win evaluation, in `connectk4`. -/
def dropMid (g : Game) (col : Int) : Game :=
  { g with board := setCell g.board (dropRow g col) col g.current
           move_count := g.move_count + 1 }

/-- `connectk4.Connect4.drop`. -/
def drop (g : Game) (col : Int) : Option Int × Game :=
  if g.winner ≠ none then (none, g)
  else if ¬(0 ≤ col ∧ col < (g.cols : Int)) ∨ getCell g.board 0 col ≠ -1 then
    (none, g)
  else
    match winning_span (dropMid g col) (dropRow g col) col with
    | some span =>
      (some (dropRow g col),
        { dropMid g col with winner := some g.current, win_line := some span })
    | none =>
      (some (dropRow g col), { dropMid g col with current := 1 - g.current })

/-- `connectk4.Connect4.is_draw`. -/
def is_draw (g : Game) : Bool :=
  decide (g.winner = none) && decide (g.move_count = g.rows * g.cols)

end K4

/-- A call a front end can make on the engine. -/
inductive Op where
  | dropAt (col : Int)
  | doReset
deriving DecidableEq

/-- Run a call sequence on the `connect4.py` engine, collecting the value
returned by each `drop` call. -/
def runOps : Game → List Op → Game × List (Option Int)
  | g, [] => (g, [])
  | g, Op.dropAt c :: ops =>
    let r := drop g c
    let rest := runOps r.2 ops
    (rest.1, r.1 :: rest.2)
  | g, Op.doReset :: ops => runOps (reset g) ops

/-- Run a call sequence on the `connectk4.py` engine. -/
def runOpsK4 : Game → List Op → Game × List (Option Int)
  | g, [] => (g, [])
  | g, Op.dropAt c :: ops =>
    let r := K4.drop g c
    let rest := runOpsK4 r.2 ops
    (rest.1, r.1 :: rest.2)
  | g, Op.doReset :: ops => runOpsK4 (K4.reset g) ops

/-- Number of non-empty cells in one row. -/
def countRow : List Cell → Nat
  | [] => 0
  | x :: xs => (if x = -1 then 0 else 1) + countRow xs

/-- Number of non-empty cells on the board. -/
def countOccupied : Board → Nat
  | [] => 0
  | row :: rest => countRow row + countOccupied rest

/-- The last matching coordinate reported by `countWalk` when it takes
`k` steps from `(rr, cc)`: the initial `(lr, lc)` for `k = 0`, the cell
`k - 1` steps beyond `(rr, cc)` otherwise. -/
def walkLast (rr cc dr dc lr lc : Int) : Nat → Int × Int
  | 0 => (lr, lc)
  | j + 1 => (rr + (j : Int) * dr, cc + (j : Int) * dc)

/-- `k` is the number of consecutive same-owner cells walking outward
from center `(r, c)` in direction `(dr, dc)`: steps `1..k` all match and
step `k + 1` does not. -/
def FwdChar (g : Game) (p : Cell) (r c dr dc : Int) (k : Nat) : Prop :=
  (∀ i : Nat, 1 ≤ i → i ≤ k →
    okCell g p (r + (i : Int) * dr) (c + (i : Int) * dc)) ∧
  ¬ okCell g p (r + ((k : Int) + 1) * dr) (c + ((k : Int) + 1) * dc)

/-- Direction `d` qualifies for a win at center `(r, c)`:
`1 + forwardCount + backwardCount >= 4`. -/
def Qualifies (g : Game) (p : Cell) (r c : Int) (d : Int × Int) : Prop :=
  ∃ kf kb : Nat, FwdChar g p r c d.1 d.2 kf ∧ FwdChar g p r c (-d.1) (-d.2) kb ∧
    4 ≤ 1 + kf + kb

/-- `res` is the winning span reported for direction `d` at center
`(r, c)`: the furthest backward-matching cell paired with the furthest
forward-matching cell of a qualifying run. -/
def SpanOf (g : Game) (p : Cell) (r c : Int) (d : Int × Int)
    (res : (Int × Int) × (Int × Int)) : Prop :=
  ∃ kf kb : Nat, FwdChar g p r c d.1 d.2 kf ∧ FwdChar g p r c (-d.1) (-d.2) kb ∧
    4 ≤ 1 + kf + kb ∧
    res = ((r - (kb : Int) * d.1, c - (kb : Int) * d.2),
           (r + (kf : Int) * d.1, c + (kf : Int) * d.2))

/-- State invariant maintained by every engine operation. -/
def EngineInv (g : Game) : Prop :=
  g.rows = 6 ∧ g.cols = 7 ∧
  g.board.length = 6 ∧ (∀ l ∈ g.board, l.length = 7) ∧
  (g.current = 0 ∨ g.current = 1) ∧
  g.move_count = countOccupied g.board ∧
  (g.winner = none ↔ g.win_line = none) ∧
  (∀ w, g.winner = some w → w = 0 ∨ w = 1) ∧
  (∀ e1 e2 : Int × Int, g.win_line = some (e1, e2) →
    (0 ≤ e1.1 ∧ e1.1 < 6 ∧ 0 ≤ e1.2 ∧ e1.2 < 7) ∧
    (0 ≤ e2.1 ∧ e2.1 < 6 ∧ 0 ≤ e2.2 ∧ e2.2 < 7))

/-- States reachable from construction through `drop` and `reset`. -/
inductive Reachable : Game → Prop where
  | init : Reachable initGame
  | reset (g : Game) : Reachable g → Reachable (reset g)
  | drop (g : Game) (col : Int) : Reachable g → Reachable ((drop g col).2)


/-- A 42-move column sequence that fills the board with no
four-in-a-row anywhere: every accepted move lands on a cell whose final
color matches the mover, so no intermediate win can occur either. -/
def drawCols : List Int :=
  [1,0,0,1,1,0,1,0,0,1,0,1,
   3,2,2,3,3,2,3,2,2,3,2,3,
   5,4,4,6,6,5,5,4,5,4,4,6,4,6,6,5,6,5]

/-- Seven moves ending with player 0 completing a horizontal
four-in-a-row at row 5, columns 0 to 3. -/
def winGame : Game :=
  execDrops initGame [0, 0, 1, 1, 2, 2, 3]


/-! ### List helper lemmas -/

theorem getDSet_self {α : Type} :
    ∀ (l : List α) (n : Nat) (v d : α), n < l.length → (l.set n v).getD n d = v := by
  intro l
  induction l with
  | nil => intro n v d h; simp at h
  | cons x xs ih =>
    intro n v d h
    cases n with
    | zero => simp
    | succ m =>
      simp only [List.set, List.getD_cons_succ]
      exact ih m v d (by simpa using h)

theorem getDSet_ne {α : Type} :
    ∀ (l : List α) (n m : Nat) (v d : α), n ≠ m → (l.set n v).getD m d = l.getD m d := by
  intro l
  induction l with
  | nil => intro n m v d _; simp
  | cons x xs ih =>
    intro n m v d hnm
    cases n with
    | zero =>
      cases m with
      | zero => exact absurd rfl hnm
      | succ j => simp
    | succ i =>
      cases m with
      | zero => simp
      | succ j =>
        simp only [List.set, List.getD_cons_succ]
        exact ih i j v d (fun h => hnm (by rw [h]))

theorem getDMem {α : Type} :
    ∀ (l : List α) (n : Nat) (d : α), n < l.length → l.getD n d ∈ l := by
  intro l
  induction l with
  | nil => intro n d h; simp at h
  | cons x xs ih =>
    intro n d h
    cases n with
    | zero => simp
    | succ m =>
      simp only [List.getD_cons_succ]
      exact List.mem_cons_of_mem x (ih m d (by simpa using h))

theorem memSet {α : Type} :
    ∀ (l : List α) (n : Nat) (v x : α), x ∈ l.set n v → x ∈ l ∨ x = v := by
  intro l
  induction l with
  | nil => intro n v x h; simp at h
  | cons y ys ih =>
    intro n v x h
    cases n with
    | zero =>
      rcases List.mem_cons.mp h with h | h
      · exact Or.inr h
      · exact Or.inl (List.mem_cons_of_mem y h)
    | succ m =>
      rcases List.mem_cons.mp h with h | h
      · exact Or.inl (by rw [h]; exact List.mem_cons_self y ys)
      · rcases ih m v x h with h | h
        · exact Or.inl (List.mem_cons_of_mem y h)
        · exact Or.inr h

/-! ### Claim C4: rejected drops -/

/-- Claim C4: for every integer column argument, a drop rejected because
the game is over, the column is out of range, or the column's top cell is
occupied returns `none` and leaves the whole state unchanged; conversely
every drop that returns `none` is one of those three rejections and
leaves the state unchanged.  (In the Python source the rejection paths
return before any board access or mutation; the out-of-range test
short-circuits before `board[0][col]` is read, so no exception can
arise.) -/
theorem c4_rejected_drop_noop (g : Game) (col : Int) :
    ((g.winner ≠ none ∨ ¬(0 ≤ col ∧ col < (g.cols : Int)) ∨
        getCell g.board 0 col ≠ -1) →
      drop g col = (none, g)) ∧
    ((drop g col).1 = none →
      drop g col = (none, g) ∧
        (g.winner ≠ none ∨ ¬(0 ≤ col ∧ col < (g.cols : Int)) ∨
          getCell g.board 0 col ≠ -1)) := by
  constructor
  · intro h
    by_cases h1 : g.winner ≠ none
    · simp [drop, h1]
    · have h2 : ¬(0 ≤ col ∧ col < (g.cols : Int)) ∨ getCell g.board 0 col ≠ -1 := by
        rcases h with h | h | h
        · exact absurd h h1
        · exact Or.inl h
        · exact Or.inr h
      simp only [drop, if_neg h1, if_pos h2]
  · intro h
    by_cases h1 : g.winner ≠ none
    · exact ⟨by simp [drop, h1], Or.inl h1⟩
    · by_cases h2 : ¬(0 ≤ col ∧ col < (g.cols : Int)) ∨ getCell g.board 0 col ≠ -1
      · exact ⟨by simp only [drop, if_neg h1, if_pos h2], Or.inr h2⟩
      · exfalso
        have hne : (drop g col).1 ≠ none := by
          unfold drop
          rw [if_neg h1, if_neg h2]
          rcases hs : winning_span (dropMid g col) (dropRow g col) col with _ | s <;>
            simp [hs]
        exact hne h

/-- Closed instance of `c4_rejected_drop_noop`: the out-of-range column
`-1` is rejected on the fresh board with no state change. -/
theorem c4_rejected_drop_noop_witness : drop initGame (-1) = (none, initGame) :=
  (c4_rejected_drop_noop initGame (-1)).1 (Or.inr (Or.inl (by decide)))

/-! ### Claim C8: `is_draw` -/

/-- Claim C8: `is_draw` is a query over the state (embedded as a pure
function, so it cannot modify the engine and always returns the same
value on the same state) returning `true` exactly when no winner has
been declared and `move_count` equals `rows * cols`. -/
theorem c8_is_draw_iff (g : Game) :
    is_draw g = true ↔ g.winner = none ∧ g.move_count = g.rows * g.cols := by
  simp [is_draw]

/-! ### Claim C5: the two embedded engines are behaviorally equivalent -/

/-- Claim C5: the `Connect4` engines of `connect4.py` and `connectk4.py`
agree: their fresh states are equal, `is_draw` agrees on every state,
and every sequence of `drop`/`reset` calls produces the same sequence of
returned values and the same final state in both engines. -/
theorem c5_engines_equivalent :
    initGame = K4.initGame ∧
    (∀ g : Game, is_draw g = K4.is_draw g) ∧
    (∀ g : Game, reset g = K4.reset g) ∧
    (∀ g : Game, ∀ col : Int, drop g col = K4.drop g col) ∧
    (∀ ops : List Op, runOps initGame ops = runOpsK4 K4.initGame ops) := by
  have hwalk : ∀ (g : Game) (p : Cell) (dr dc : Int) (fuel : Nat) (rr cc : Int)
      (n : Nat) (lr lc : Int),
      countWalk g p dr dc fuel rr cc n lr lc = K4.countWalk g p dr dc fuel rr cc n lr lc := by
    intro g p dr dc fuel
    induction fuel with
    | zero => intro rr cc n lr lc; rfl
    | succ f ih =>
      intro rr cc n lr lc
      by_cases hok : okCell g p rr cc
      · simp only [countWalk, K4.countWalk, if_pos hok]; exact ih _ _ _ _ _
      · simp only [countWalk, K4.countWalk, if_neg hok]
  have hcal : ∀ (g : Game) (p : Cell) (r c dr dc : Int),
      count_and_last g p r c dr dc = K4.count_and_last g p r c dr dc := by
    intro g p r c dr dc
    simp only [count_and_last, K4.count_and_last, hwalk]
  have hchk : ∀ (g : Game) (p : Cell) (r c dr dc : Int),
      checkDir g p r c dr dc = K4.checkDir g p r c dr dc := by
    intro g p r c dr dc
    simp only [checkDir, K4.checkDir, hcal]
  have hws : ∀ (g : Game) (r c : Int),
      winning_span g r c = K4.winning_span g r c := by
    intro g r c
    simp only [winning_span, K4.winning_span, hchk]
  have hfr : ∀ (g : Game) (col : Int) (fuel : Nat) (row : Int),
      findRowAux g col fuel row = K4.findRowAux g col fuel row := by
    intro g col fuel
    induction fuel with
    | zero => intro row; rfl
    | succ f ih =>
      intro row
      by_cases hg : 0 ≤ row ∧ getCell g.board row col ≠ -1
      · simp only [findRowAux, K4.findRowAux, if_pos hg]; exact ih _
      · simp only [findRowAux, K4.findRowAux, if_neg hg]
  have hdr : ∀ (g : Game) (col : Int), dropRow g col = K4.dropRow g col := by
    intro g col; simp only [dropRow, K4.dropRow, hfr]
  have hdm : ∀ (g : Game) (col : Int), dropMid g col = K4.dropMid g col := by
    intro g col; simp only [dropMid, K4.dropMid, hdr]
  have hdrop : ∀ (g : Game) (col : Int), drop g col = K4.drop g col := by
    intro g col
    simp only [drop, K4.drop, hws, hdr, hdm]
  refine ⟨rfl, fun g => rfl, fun g => rfl, hdrop, ?_⟩
  have hrun : ∀ (ops : List Op) (g : Game), runOps g ops = runOpsK4 g ops := by
    intro ops
    induction ops with
    | nil => intro g; rfl
    | cons op rest ih =>
      intro g
      cases op with
      | dropAt c => simp only [runOps, runOpsK4, hdrop, ih]
      | doReset =>
        have : reset g = K4.reset g := rfl
        simp only [runOps, runOpsK4, this, ih]
  intro ops
  exact hrun ops initGame

/-! ### The bottom-up row scan -/

theorem findRowAux_spec (g : Game) (col : Int) :
    ∀ (fuel : Nat) (row : Int), row < (fuel : Int) → -1 ≤ row →
      -1 ≤ findRowAux g col fuel row ∧
      findRowAux g col fuel row ≤ row ∧
      (∀ r' : Int, findRowAux g col fuel row < r' → r' ≤ row →
        getCell g.board r' col ≠ -1) ∧
      (0 ≤ findRowAux g col fuel row →
        getCell g.board (findRowAux g col fuel row) col = -1) := by
  intro fuel
  induction fuel with
  | zero =>
    intro row h1 h2
    have hrow : row = -1 := by push_cast at h1; omega
    subst hrow
    refine ⟨by simp [findRowAux], by simp [findRowAux], ?_, ?_⟩
    · intro r' ha hb
      simp only [findRowAux] at ha
      omega
    · intro h0
      simp only [findRowAux] at h0
      omega
  | succ f ih =>
    intro row h1 h2
    by_cases hg : 0 ≤ row ∧ getCell g.board row col ≠ -1
    · have heq : findRowAux g col (f + 1) row = findRowAux g col f (row - 1) := by
        simp only [findRowAux, if_pos hg]
      obtain ⟨i1, i2, i3, i4⟩ :=
        ih (row - 1) (by push_cast at h1 ⊢; omega) (by omega)
      rw [heq]
      refine ⟨i1, by omega, ?_, i4⟩
      intro r' ha hb
      by_cases hr' : r' ≤ row - 1
      · exact i3 r' ha hr'
      · have : r' = row := by omega
        rw [this]
        exact hg.2
    · have heq : findRowAux g col (f + 1) row = row := by
        simp only [findRowAux, if_neg hg]
      rw [heq]
      refine ⟨h2, le_refl _, ?_, ?_⟩
      · intro r' ha hb; omega
      · intro h0
        by_contra hne
        exact hg ⟨h0, hne⟩

theorem dropRow_spec (g : Game) (col : Int) (h6 : g.rows = 6)
    (htop : getCell g.board 0 col = -1) :
    0 ≤ dropRow g col ∧ dropRow g col < 6 ∧
    getCell g.board (dropRow g col) col = -1 ∧
    (∀ r' : Int, dropRow g col < r' → r' < 6 → getCell g.board r' col ≠ -1) := by
  have h :=
    findRowAux_spec g col (g.rows + 1) ((g.rows : Int) - 1)
      (by rw [h6]; omega) (by rw [h6]; omega)
  obtain ⟨i1, i2, i3, i4⟩ := h
  have hR : dropRow g col = findRowAux g col (g.rows + 1) ((g.rows : Int) - 1) := rfl
  rw [← hR] at i1 i2 i3 i4
  have h5 : (g.rows : Int) - 1 = 5 := by rw [h6]; norm_num
  rw [h5] at i2 i3
  have hpos : 0 ≤ dropRow g col := by
    by_contra hneg
    push_neg at hneg
    exact i3 0 (by omega) (by omega) htop
  refine ⟨hpos, by omega, i4 hpos, ?_⟩
  intro r' ha hb
  exact i3 r' ha (by omega)

/-! ### Counting occupied cells -/

theorem countRow_le : ∀ l : List Cell, countRow l ≤ l.length := by
  intro l
  induction l with
  | nil => simp [countRow]
  | cons x xs ih =>
    simp only [countRow, List.length_cons]
    have h0 : (if x = -1 then 0 else 1) ≤ 1 := by split <;> omega
    omega

theorem countRow_set :
    ∀ (l : List Cell) (n : Nat) (v : Cell), n < l.length →
      l.getD n (-1) = -1 → v ≠ -1 → countRow (l.set n v) = countRow l + 1 := by
  intro l
  induction l with
  | nil => intro n v h; simp at h
  | cons x xs ih =>
    intro n v hlen hemp hv
    cases n with
    | zero =>
      simp only [List.getD_cons_zero] at hemp
      have h0 : (if x = -1 then 0 else 1) = 0 := by simp [hemp]
      have h1 : (if v = -1 then 0 else 1) = 1 := by simp [hv]
      simp only [List.set, countRow, h0, h1]
      omega
    | succ m =>
      simp only [List.getD_cons_succ] at hemp
      simp only [List.set, countRow]
      rw [ih m v (by simpa using hlen) hemp hv]
      omega

theorem countRow_lt_of_empty :
    ∀ (l : List Cell) (n : Nat), n < l.length → l.getD n (-1) = -1 →
      countRow l < l.length := by
  intro l
  induction l with
  | nil => intro n h; simp at h
  | cons x xs ih =>
    intro n hlen hemp
    cases n with
    | zero =>
      simp only [List.getD_cons_zero] at hemp
      have h0 : (if x = -1 then 0 else 1) = 0 := by simp [hemp]
      simp only [countRow, List.length_cons, h0]
      have := countRow_le xs
      omega
    | succ m =>
      simp only [List.getD_cons_succ] at hemp
      have := ih m (by simpa using hlen) hemp
      have h0 : (if x = -1 then 0 else 1) ≤ 1 := by split <;> omega
      simp only [countRow, List.length_cons]
      omega

theorem countOccupied_set :
    ∀ (b : Board) (rn cn : Nat) (v : Cell), rn < b.length →
      cn < (b.getD rn []).length → (b.getD rn []).getD cn (-1) = -1 → v ≠ -1 →
      countOccupied (b.set rn ((b.getD rn []).set cn v)) = countOccupied b + 1 := by
  intro b
  induction b with
  | nil => intro rn cn v h; simp at h
  | cons l rest ih =>
    intro rn cn v hlen hcn hemp hv
    cases rn with
    | zero =>
      simp only [List.getD_cons_zero] at hcn hemp
      simp only [List.getD_cons_zero, List.set, countOccupied]
      rw [countRow_set l cn v hcn hemp hv]
      omega
    | succ m =>
      simp only [List.getD_cons_succ] at hcn hemp
      simp only [List.getD_cons_succ, List.set, countOccupied]
      rw [ih m cn v (by simpa using hlen) hcn hemp hv]
      omega

theorem countOccupied_le :
    ∀ b : Board, (∀ l ∈ b, l.length = 7) → countOccupied b ≤ 7 * b.length := by
  intro b
  induction b with
  | nil => simp [countOccupied]
  | cons l rest ih =>
    intro hsh
    simp only [countOccupied, List.length_cons]
    have h1 : countRow l ≤ 7 := by
      have := countRow_le l
      rw [hsh l (List.mem_cons_self l rest)] at this
      exact this
    have h2 := ih (fun x hx => hsh x (List.mem_cons_of_mem l hx))
    omega

theorem countOccupied_lt :
    ∀ (b : Board) (rn : Nat), (∀ l ∈ b, l.length = 7) → rn < b.length →
      countRow (b.getD rn []) < 7 → countOccupied b < 7 * b.length := by
  intro b
  induction b with
  | nil => intro rn _ h; simp at h
  | cons l rest ih =>
    intro rn hsh hlen hcr
    cases rn with
    | zero =>
      simp only [List.getD_cons_zero] at hcr
      simp only [countOccupied, List.length_cons]
      have := countOccupied_le rest (fun x hx => hsh x (List.mem_cons_of_mem l hx))
      omega
    | succ m =>
      simp only [List.getD_cons_succ] at hcr
      have h1 := ih m (fun x hx => hsh x (List.mem_cons_of_mem l hx))
        (by simpa using hlen) hcr
      have h2 : countRow l ≤ 7 := by
        have := countRow_le l
        rw [hsh l (List.mem_cons_self l rest)] at this
        exact this
      simp only [countOccupied, List.length_cons]
      omega

theorem full_board_occupied (b : Board) (hlen : b.length = 6)
    (hsh : ∀ l ∈ b, l.length = 7) (hcount : countOccupied b = 42) :
    ∀ r c : Int, 0 ≤ r → r < 6 → 0 ≤ c → c < 7 → getCell b r c ≠ -1 := by
  intro r c hr0 hr1 hc0 hc1 hempty
  have hrn : r.toNat < b.length := by omega
  have hrowlen : (b.getD r.toNat []).length = 7 := hsh _ (getDMem b r.toNat [] hrn)
  have hcn : c.toNat < (b.getD r.toNat []).length := by omega
  have hlt : countRow (b.getD r.toNat []) < 7 := by
    have := countRow_lt_of_empty (b.getD r.toNat []) c.toNat hcn hempty
    omega
  have := countOccupied_lt b r.toNat hsh hrn hlt
  omega

/-! ### Bounds on the reported win-line endpoints -/

theorem countWalk_last_bounds (g : Game) (p : Cell) (dr dc : Int) :
    ∀ (fuel : Nat) (rr cc : Int) (n : Nat) (lr lc : Int),
      0 ≤ lr → lr < (g.rows : Int) → 0 ≤ lc → lc < (g.cols : Int) →
      0 ≤ (countWalk g p dr dc fuel rr cc n lr lc).2.1 ∧
      (countWalk g p dr dc fuel rr cc n lr lc).2.1 < (g.rows : Int) ∧
      0 ≤ (countWalk g p dr dc fuel rr cc n lr lc).2.2 ∧
      (countWalk g p dr dc fuel rr cc n lr lc).2.2 < (g.cols : Int) := by
  intro fuel
  induction fuel with
  | zero =>
    intro rr cc n lr lc h1 h2 h3 h4
    simp only [countWalk]
    exact ⟨h1, h2, h3, h4⟩
  | succ f ih =>
    intro rr cc n lr lc h1 h2 h3 h4
    by_cases hok : okCell g p rr cc
    · simp only [countWalk, if_pos hok]
      exact ih _ _ _ _ _ hok.1 hok.2.1 hok.2.2.1 hok.2.2.2.1
    · simp only [countWalk, if_neg hok]
      exact ⟨h1, h2, h3, h4⟩

theorem count_and_last_bounds (g : Game) (p : Cell) (r c dr dc : Int)
    (hr0 : 0 ≤ r) (hr1 : r < (g.rows : Int)) (hc0 : 0 ≤ c) (hc1 : c < (g.cols : Int)) :
    0 ≤ (count_and_last g p r c dr dc).2.1 ∧
    (count_and_last g p r c dr dc).2.1 < (g.rows : Int) ∧
    0 ≤ (count_and_last g p r c dr dc).2.2 ∧
    (count_and_last g p r c dr dc).2.2 < (g.cols : Int) :=
  countWalk_last_bounds g p dr dc _ _ _ _ _ _ hr0 hr1 hc0 hc1

theorem checkDir_some_bounds (g : Game) (p : Cell) (r c dr dc : Int)
    (hr0 : 0 ≤ r) (hr1 : r < (g.rows : Int)) (hc0 : 0 ≤ c) (hc1 : c < (g.cols : Int)) :
    ∀ e1 e2 : Int × Int, checkDir g p r c dr dc = some (e1, e2) →
      (0 ≤ e1.1 ∧ e1.1 < (g.rows : Int) ∧ 0 ≤ e1.2 ∧ e1.2 < (g.cols : Int)) ∧
      (0 ≤ e2.1 ∧ e2.1 < (g.rows : Int) ∧ 0 ≤ e2.2 ∧ e2.2 < (g.cols : Int)) := by
  intro e1 e2 h
  simp only [checkDir] at h
  split at h
  · have hb := count_and_last_bounds g p r c (-dr) (-dc) hr0 hr1 hc0 hc1
    have hf := count_and_last_bounds g p r c dr dc hr0 hr1 hc0 hc1
    have he : ((count_and_last g p r c (-dr) (-dc)).2.1,
        (count_and_last g p r c (-dr) (-dc)).2.2) = e1 ∧
        ((count_and_last g p r c dr dc).2.1,
        (count_and_last g p r c dr dc).2.2) = e2 := by
      have := h
      injection this with h1
      injection h1 with ha hb'
      exact ⟨ha, hb'⟩
    obtain ⟨he1, he2⟩ := he
    rw [← he1, ← he2]
    exact ⟨⟨hb.1, hb.2.1, hb.2.2.1, hb.2.2.2⟩, ⟨hf.1, hf.2.1, hf.2.2.1, hf.2.2.2⟩⟩
  · exact absurd h (by simp)

theorem winning_span_some_bounds (g : Game) (r c : Int)
    (hr0 : 0 ≤ r) (hr1 : r < (g.rows : Int)) (hc0 : 0 ≤ c) (hc1 : c < (g.cols : Int)) :
    ∀ e1 e2 : Int × Int, winning_span g r c = some (e1, e2) →
      (0 ≤ e1.1 ∧ e1.1 < (g.rows : Int) ∧ 0 ≤ e1.2 ∧ e1.2 < (g.cols : Int)) ∧
      (0 ≤ e2.1 ∧ e2.1 < (g.rows : Int) ∧ 0 ≤ e2.2 ∧ e2.2 < (g.cols : Int)) := by
  intro e1 e2 h
  simp only [winning_span] at h
  split at h
  · exact absurd h (by simp)
  · set p := getCell g.board r c
    rcases h1 : checkDir g p r c 0 1 with _ | s1
    · rcases h2 : checkDir g p r c 1 0 with _ | s2
      · rcases h3 : checkDir g p r c 1 1 with _ | s3
        · rw [h1, h2, h3] at h
          exact checkDir_some_bounds g p r c 1 (-1) hr0 hr1 hc0 hc1 e1 e2 h
        · rw [h1, h2, h3] at h
          injection h with h'
          subst h'
          exact checkDir_some_bounds g p r c 1 1 hr0 hr1 hc0 hc1 e1 e2 h3
      · rw [h1, h2] at h
        injection h with h'
        subst h'
        exact checkDir_some_bounds g p r c 1 0 hr0 hr1 hc0 hc1 e1 e2 h2
    · rw [h1] at h
      injection h with h'
      subst h'
      exact checkDir_some_bounds g p r c 0 1 hr0 hr1 hc0 hc1 e1 e2 h1

/-! ### Reading back a written cell -/

theorem setPastLength {α : Type} :
    ∀ (l : List α) (n : Nat) (v : α), l.length ≤ n → l.set n v = l := by
  intro l
  induction l with
  | nil => intro n v _; simp
  | cons x xs ih =>
    intro n v h
    cases n with
    | zero => simp at h
    | succ m => simp only [List.set]; rw [ih m v (by simpa using h)]

theorem getCell_setCell_self (b : Board) (r c : Int) (v : Cell)
    (hrb : r.toNat < b.length) (hcb : c.toNat < (b.getD r.toNat []).length) :
    getCell (setCell b r c v) r c = v := by
  unfold getCell setCell
  rw [getDSet_self b r.toNat _ [] hrb]
  exact getDSet_self _ c.toNat v (-1) hcb

theorem getCell_setCell_ne (b : Board) (r c r' c' : Int) (v : Cell)
    (h : r.toNat ≠ r'.toNat ∨ c.toNat ≠ c'.toNat) :
    getCell (setCell b r c v) r' c' = getCell b r' c' := by
  rcases h with h | h
  · unfold getCell setCell
    rw [getDSet_ne b r.toNat r'.toNat _ [] h]
  · by_cases hr : r.toNat = r'.toNat
    · unfold getCell setCell
      rw [← hr]
      by_cases hb : r.toNat < b.length
      · rw [getDSet_self b r.toNat _ [] hb, getDSet_ne _ c.toNat c'.toNat v (-1) h]
      · rw [setPastLength b r.toNat _ (by omega)]
    · unfold getCell setCell
      rw [getDSet_ne b r.toNat r'.toNat _ [] hr]

/-! ### Unfolding an accepted drop -/

theorem drop_accepted (g : Game) (col : Int) (h1 : g.winner = none)
    (h2 : 0 ≤ col ∧ col < (g.cols : Int)) (h3 : getCell g.board 0 col = -1) :
    drop g col =
      match winning_span (dropMid g col) (dropRow g col) col with
      | some span =>
        (some (dropRow g col),
          { dropMid g col with winner := some g.current, win_line := some span })
      | none =>
        (some (dropRow g col), { dropMid g col with current := 1 - g.current }) := by
  unfold drop
  rw [if_neg (by simp [h1]), if_neg (by push_neg; exact ⟨h2, h3⟩)]

/-! ### The invariant is preserved by every operation -/

theorem inv_init : EngineInv initGame := by
  unfold EngineInv
  refine ⟨rfl, rfl, rfl, ?_, Or.inl rfl, by decide, by simp [initGame], ?_, ?_⟩
  · intro l hl
    rw [List.eq_of_mem_replicate hl]
    rfl
  · intro w hw
    simp [initGame] at hw
  · intro e1 e2 h
    simp [initGame] at h

theorem inv_reset (g : Game) (ih : EngineInv g) : EngineInv (reset g) := by
  obtain ⟨h6, h7, -, -, -, -, -, -, -⟩ := ih
  unfold EngineInv reset
  refine ⟨h6, h7, by rw [h6]; simp, ?_, Or.inl rfl, ?_, by simp, ?_, ?_⟩
  · intro l hl
    simp only at hl
    rw [List.eq_of_mem_replicate hl, h7]
    simp
  · rw [h6, h7]
    decide
  · intro w hw
    simp at hw
  · intro e1 e2 h
    simp at h

theorem inv_drop (g : Game) (col : Int) (ih : EngineInv g) :
    EngineInv ((drop g col).2) := by
  obtain ⟨h6, h7, hlen, hsh, hcur, hmc, hsync, hwval, hwl⟩ := ih
  by_cases hb1 : g.winner ≠ none
  · have heq : drop g col = (none, g) := by unfold drop; rw [if_pos hb1]
    rw [heq]
    exact ⟨h6, h7, hlen, hsh, hcur, hmc, hsync, hwval, hwl⟩
  · by_cases hb2 : ¬(0 ≤ col ∧ col < (g.cols : Int)) ∨ getCell g.board 0 col ≠ -1
    · have heq : drop g col = (none, g) := by unfold drop; rw [if_neg hb1, if_pos hb2]
      rw [heq]
      exact ⟨h6, h7, hlen, hsh, hcur, hmc, hsync, hwval, hwl⟩
    · push_neg at hb2
      obtain ⟨⟨hc0, hc1⟩, htop⟩ := hb2
      have hw : g.winner = none := not_not.mp hb1
      obtain ⟨hr0, hr1, hemp, -⟩ := dropRow_spec g col h6 htop
      have hacc := drop_accepted g col hw ⟨hc0, hc1⟩ htop
      have hrn : (dropRow g col).toNat < g.board.length := by omega
      have hrowlen : (g.board.getD (dropRow g col).toNat []).length = 7 :=
        hsh _ (getDMem _ _ _ hrn)
      have hcn : col.toNat < (g.board.getD (dropRow g col).toNat []).length := by
        rw [hrowlen]; omega
      have hval : g.current ≠ -1 := by
        rcases hcur with h | h <;> rw [h] <;> decide
      have hcount : countOccupied (setCell g.board (dropRow g col) col g.current) =
          countOccupied g.board + 1 := by
        unfold setCell
        exact countOccupied_set g.board (dropRow g col).toNat col.toNat g.current
          hrn hcn (by simpa [getCell] using hemp) hval
      have hlen' : (setCell g.board (dropRow g col) col g.current).length = 6 := by
        unfold setCell; rw [List.length_set]; exact hlen
      have hsh' : ∀ l ∈ setCell g.board (dropRow g col) col g.current, l.length = 7 := by
        intro l hl
        unfold setCell at hl
        rcases memSet _ _ _ _ hl with h | h
        · exact hsh _ h
        · rw [h, List.length_set]; exact hrowlen
      rw [hacc]
      cases hspan : winning_span (dropMid g col) (dropRow g col) col with
      | none =>
        unfold EngineInv dropMid
        refine ⟨h6, h7, hlen', hsh', ?_, ?_, ?_, ?_, ?_⟩
        · rcases hcur with h | h <;> rw [h]
          · exact Or.inr (by norm_num)
          · exact Or.inl (by norm_num)
        · simp only []
          rw [hcount, hmc]
        · simp only []
          rw [hw, hsync.mp hw]
          simp
        · simp only []
          rw [hw]
          intro w hww
          simp at hww
        · simp only []
          have hwl0 : g.win_line = none := hsync.mp hw
          rw [hwl0]
          intro e1 e2 h
          simp at h
      | some span =>
        unfold EngineInv dropMid
        refine ⟨h6, h7, hlen', hsh', hcur, ?_, ?_, ?_, ?_⟩
        · simp only []
          rw [hcount, hmc]
        · constructor <;> intro h <;> simp at h
        · intro w hww
          simp only [Option.some_inj] at hww
          rw [← hww]
          exact hcur
        · intro e1 e2 hee
          simp only [Option.some_inj] at hee
          have hrows : (dropMid g col).rows = 6 := h6
          have hcols : (dropMid g col).cols = 7 := h7
          have hb := winning_span_some_bounds (dropMid g col) (dropRow g col) col
            (by exact hr0) (by rw [hrows]; omega)
            (by exact hc0) (by rw [hcols]; omega)
            e1 e2 (by rw [← hee]; exact hspan)
          rw [hrows, hcols] at hb
          push_cast at hb
          exact hb

theorem reachable_inv (g : Game) (h : Reachable g) : EngineInv g := by
  induction h with
  | init => exact inv_init
  | reset g' _ ih => exact inv_reset g' ih
  | drop g' col _ ih => exact inv_drop g' col ih

/-! ### Reachability helper -/

theorem reachable_execDrops (g : Game) (l : List Int) (h : Reachable g) :
    Reachable (execDrops g l) := by
  induction l generalizing g with
  | nil => exact h
  | cons c rest ih =>
    have heq : execDrops g (c :: rest) = execDrops (drop g c).2 rest := rfl
    rw [heq]
    exact ih _ (Reachable.drop g c h)

/-! ### Claim C9: `move_count` counts the occupied cells -/

/-- Claim C9: in every state reachable from construction via `drop` and
`reset`, `move_count` equals the number of non-empty board cells; the
reachability induction behind `reachable_inv` shows each operation
(construction, `reset`, accepted and rejected `drop`) preserves this. -/
theorem c9_move_count_occupied (g : Game) (h : Reachable g) :
    g.move_count = countOccupied g.board :=
  (reachable_inv g h).2.2.2.2.2.1

/-- Closed instance of `c9_move_count_occupied` after one drop. -/
theorem c9_move_count_occupied_witness :
    (drop initGame 4).2.move_count = countOccupied (drop initGame 4).2.board :=
  c9_move_count_occupied _ (Reachable.drop initGame 4 Reachable.init)

/-! ### Claim C10: `winner` and `win_line` stay synchronized -/

/-- Claim C10: in every reachable state `winner` is set exactly when
`win_line` is set; a set `winner` is `0` or `1` and a set `win_line` is a
pair of in-bounds cell coordinates. -/
theorem c10_outcome_sync (g : Game) (h : Reachable g) :
    (g.winner = none ↔ g.win_line = none) ∧
    (∀ w, g.winner = some w → w = 0 ∨ w = 1) ∧
    (∀ e1 e2 : Int × Int, g.win_line = some (e1, e2) →
      (0 ≤ e1.1 ∧ e1.1 < 6 ∧ 0 ≤ e1.2 ∧ e1.2 < 7) ∧
      (0 ≤ e2.1 ∧ e2.1 < 6 ∧ 0 ≤ e2.2 ∧ e2.2 < 7)) := by
  obtain ⟨-, -, -, -, -, -, hs, hv, hl⟩ := reachable_inv g h
  exact ⟨hs, hv, hl⟩

/-- Closed instance of `c10_outcome_sync` on a state with a declared
winner (player 0 completes a horizontal four). -/
theorem c10_outcome_sync_witness :
    ((execDrops initGame [0, 0, 1, 1, 2, 2, 3]).winner = none ↔
      (execDrops initGame [0, 0, 1, 1, 2, 2, 3]).win_line = none) ∧
    (∀ w, (execDrops initGame [0, 0, 1, 1, 2, 2, 3]).winner = some w →
      w = 0 ∨ w = 1) ∧
    (∀ e1 e2 : Int × Int,
      (execDrops initGame [0, 0, 1, 1, 2, 2, 3]).win_line = some (e1, e2) →
      (0 ≤ e1.1 ∧ e1.1 < 6 ∧ 0 ≤ e1.2 ∧ e1.2 < 7) ∧
      (0 ≤ e2.1 ∧ e2.1 < 6 ∧ 0 ≤ e2.2 ∧ e2.2 < 7)) :=
  c10_outcome_sync _
    (reachable_execDrops initGame [0, 0, 1, 1, 2, 2, 3] Reachable.init)

/-! ### Claim C7: `reset` restores the fresh state and is idempotent -/

/-- Claim C7: from any reachable state, `reset` yields exactly the fresh
construction state, and `reset` is idempotent. -/
theorem c7_reset_fresh (g : Game) (h : Reachable g) :
    reset g = initGame ∧ reset (reset g) = reset g := by
  obtain ⟨h6, h7, -, -, -, -, -, -, -⟩ := reachable_inv g h
  have h1 : reset g = initGame := by
    unfold reset initGame
    rw [h6, h7]
  refine ⟨h1, ?_⟩
  rw [h1]
  rfl

/-- Closed instance of `c7_reset_fresh` from a mid-game state. -/
theorem c7_reset_fresh_witness :
    reset ((drop initGame 2).2) = initGame ∧
    reset (reset ((drop initGame 2).2)) = reset ((drop initGame 2).2) :=
  c7_reset_fresh _ (Reachable.drop initGame 2 Reachable.init)

/-! ### Claim C6: a drawn board rejects every further drop -/

/-- Claim C6: in any reachable state with all `6 * 7` cells occupied and
no winner, `is_draw` returns `true` and `drop` on every column — in
range or not — returns `none` and leaves the state unchanged. -/
theorem c6_draw_rejects_all (g : Game) (h : Reachable g)
    (hm : g.move_count = 6 * 7) (hw : g.winner = none) :
    is_draw g = true ∧ ∀ col : Int, drop g col = (none, g) := by
  obtain ⟨h6, h7, hlen, hsh, -, hmc, -, -, -⟩ := reachable_inv g h
  constructor
  · simp [is_draw, hw, hm, h6, h7]
  · intro col
    by_cases hcol : 0 ≤ col ∧ col < (g.cols : Int)
    · have hocc : getCell g.board 0 col ≠ -1 := by
        apply full_board_occupied g.board hlen hsh (by omega) 0 col
        · norm_num
        · norm_num
        · exact hcol.1
        · have := hcol.2
          omega
      unfold drop
      rw [if_neg (by simp [hw]), if_pos (Or.inr hocc)]
    · unfold drop
      rw [if_neg (by simp [hw]), if_pos (Or.inl hcol)]

set_option maxRecDepth 40000 in
/-- Closed instance of `c6_draw_rejects_all` on the concrete drawn game
`drawCols` (42 accepted drops, no four-in-a-row anywhere). -/
theorem c6_draw_rejects_all_witness :
    is_draw (execDrops initGame drawCols) = true ∧
    drop (execDrops initGame drawCols) 3 = (none, execDrops initGame drawCols) ∧
    drop (execDrops initGame drawCols) (-2) = (none, execDrops initGame drawCols) := by
  have h := c6_draw_rejects_all (execDrops initGame drawCols)
    (reachable_execDrops initGame drawCols Reachable.init) (by decide) (by decide)
  exact ⟨h.1, h.2 3, h.2 (-2)⟩

/-! ### Claim C2: gravity placement -/

/-- Claim C2: for every column in range whose top cell is empty, while
the game is in progress, the drop is accepted, places the current
player's disc in the lowest empty row of that column (all rows below it
were already occupied and the target cell was empty, so nothing is
overwritten and the disc never floats above a gap), leaves every other
cell unchanged, increments `move_count` by one, and returns that row. -/
theorem c2_gravity (g : Game) (col : Int) (h : Reachable g) (hw : g.winner = none)
    (hc0 : 0 ≤ col) (hc1 : col < 7) (htop : getCell g.board 0 col = -1) :
    ∃ row : Int,
      (drop g col).1 = some row ∧ 0 ≤ row ∧ row < 6 ∧
      getCell g.board row col = -1 ∧
      (∀ r' : Int, row < r' → r' < 6 → getCell g.board r' col ≠ -1) ∧
      getCell (drop g col).2.board row col = g.current ∧
      (∀ r' c' : Int, 0 ≤ r' → r' < 6 → 0 ≤ c' → c' < 7 → ¬(r' = row ∧ c' = col) →
        getCell (drop g col).2.board r' c' = getCell g.board r' c') ∧
      (drop g col).2.move_count = g.move_count + 1 := by
  obtain ⟨h6, h7, hlen, hsh, -, -, -, -, -⟩ := reachable_inv g h
  have hc1' : col < (g.cols : Int) := by omega
  obtain ⟨hr0, hr1, hemp, habove⟩ := dropRow_spec g col h6 htop
  have hacc := drop_accepted g col hw ⟨hc0, hc1'⟩ htop
  have hrn : (dropRow g col).toNat < g.board.length := by omega
  have hrowlen : (g.board.getD (dropRow g col).toNat []).length = 7 :=
    hsh _ (getDMem _ _ _ hrn)
  have hcn : col.toNat < (g.board.getD (dropRow g col).toNat []).length := by
    rw [hrowlen]; omega
  have hmb : (drop g col).2.board = setCell g.board (dropRow g col) col g.current := by
    rw [hacc]; cases winning_span (dropMid g col) (dropRow g col) col <;> rfl
  have hmm : (drop g col).2.move_count = g.move_count + 1 := by
    rw [hacc]; cases winning_span (dropMid g col) (dropRow g col) col <;> rfl
  have hfst : (drop g col).1 = some (dropRow g col) := by
    rw [hacc]; cases winning_span (dropMid g col) (dropRow g col) col <;> rfl
  refine ⟨dropRow g col, hfst, hr0, hr1, hemp, habove, ?_, ?_, hmm⟩
  · rw [hmb]
    exact getCell_setCell_self g.board _ col g.current hrn hcn
  · intro r' c' h0 h1 h2 h3 hne
    rw [hmb]
    apply getCell_setCell_ne
    by_cases hrr : r' = dropRow g col
    · right
      have hcc : c' ≠ col := fun hc => hne ⟨hrr, hc⟩
      omega
    · left
      omega

/-- Closed instance of `c2_gravity`: dropping into column 3 of the fresh
board. -/
theorem c2_gravity_witness :
    ∃ row : Int,
      (drop initGame 3).1 = some row ∧ 0 ≤ row ∧ row < 6 ∧
      getCell initGame.board row 3 = -1 ∧
      (∀ r' : Int, row < r' → r' < 6 → getCell initGame.board r' 3 ≠ -1) ∧
      getCell (drop initGame 3).2.board row 3 = initGame.current ∧
      (∀ r' c' : Int, 0 ≤ r' → r' < 6 → 0 ≤ c' → c' < 7 → ¬(r' = row ∧ c' = 3) →
        getCell (drop initGame 3).2.board r' c' = getCell initGame.board r' c') ∧
      (drop initGame 3).2.move_count = initGame.move_count + 1 :=
  c2_gravity initGame 3 Reachable.init rfl (by decide) (by decide) (by decide)

/-! ### Claim C3: when the turn flips -/

/-- Claim C3 as stated is false on the code (see `c3_counterexample`):
the engine flips `current` after every accepted non-winning move,
including the move that fills the board.  Amended claim: for every
accepted drop from a reachable state, if the move creates a win
`current` is unchanged; otherwise — also when the move fills the board —
`current` flips exactly once to the other element of `{0, 1}`. -/
theorem c3_turn_flip (g : Game) (col : Int) (h : Reachable g)
    (row : Int) (hacc : (drop g col).1 = some row) :
    ((drop g col).2.winner ≠ none → (drop g col).2.current = g.current) ∧
    ((drop g col).2.winner = none →
      (drop g col).2.current = 1 - g.current ∧
      (drop g col).2.current ≠ g.current ∧
      ((g.current = 0 ∧ (drop g col).2.current = 1) ∨
        (g.current = 1 ∧ (drop g col).2.current = 0))) := by
  obtain ⟨-, -, -, -, hcur, -, -, -, -⟩ := reachable_inv g h
  by_cases hb1 : g.winner ≠ none
  · exfalso
    have heq : drop g col = (none, g) := by unfold drop; rw [if_pos hb1]
    rw [heq] at hacc
    simp at hacc
  · by_cases hb2 : ¬(0 ≤ col ∧ col < (g.cols : Int)) ∨ getCell g.board 0 col ≠ -1
    · exfalso
      have heq : drop g col = (none, g) := by
        unfold drop; rw [if_neg hb1, if_pos hb2]
      rw [heq] at hacc
      simp at hacc
    · push_neg at hb2
      obtain ⟨hc, htop⟩ := hb2
      have hw : g.winner = none := not_not.mp hb1
      have heq := drop_accepted g col hw hc htop
      cases hspan : winning_span (dropMid g col) (dropRow g col) col with
      | some span =>
        rw [heq, hspan]
        constructor
        · intro _
          rfl
        · intro hnone
          exfalso
          simp at hnone
      | none =>
        rw [heq, hspan]
        constructor
        · intro hne
          exact absurd hw hne
        · intro _
          refine ⟨rfl, ?_, ?_⟩
          · show 1 - g.current ≠ g.current
            rcases hcur with hcc | hcc <;> rw [hcc] <;> decide
          · rcases hcur with hcc | hcc
            · exact Or.inl ⟨hcc, by show 1 - g.current = 1; rw [hcc]; decide⟩
            · exact Or.inr ⟨hcc, by show 1 - g.current = 0; rw [hcc]; decide⟩

set_option maxRecDepth 40000 in
/-- Counterexample to claim C3 as stated: in the drawn game `drawCols`,
the 42nd move is accepted, does not win, raises `move_count` to
`6 * 7 = 42` (the board is full), and yet `current` flips from `1` to
`0` — the code has no special case for the board-filling move. -/
theorem c3_counterexample :
    (execDrops initGame drawCols.dropLast).current = 1 ∧
    (drop (execDrops initGame drawCols.dropLast) 5).1 = some 0 ∧
    (drop (execDrops initGame drawCols.dropLast) 5).2.winner = none ∧
    (drop (execDrops initGame drawCols.dropLast) 5).2.move_count = 6 * 7 ∧
    (drop (execDrops initGame drawCols.dropLast) 5).2.current = 0 := by
  decide

/-- Closed instance of `c3_turn_flip`: the first move of a game flips the
turn from player 0 to player 1. -/
theorem c3_turn_flip_witness :
    ((drop initGame 0).2.winner ≠ none →
      (drop initGame 0).2.current = initGame.current) ∧
    ((drop initGame 0).2.winner = none →
      (drop initGame 0).2.current = 1 - initGame.current ∧
      (drop initGame 0).2.current ≠ initGame.current ∧
      ((initGame.current = 0 ∧ (drop initGame 0).2.current = 1) ∨
        (initGame.current = 1 ∧ (drop initGame 0).2.current = 0))) :=
  c3_turn_flip initGame 0 Reachable.init 5 (by decide)

/-! ### Characterizing the outward walks -/

theorem countWalk_char (g : Game) (p : Cell) (dr dc : Int) :
    ∀ (fuel : Nat) (rr cc : Int) (n : Nat) (lr lc : Int),
      (∀ i : Nat, fuel ≤ i →
        ¬ okCell g p (rr + (i : Int) * dr) (cc + (i : Int) * dc)) →
      ∃ k : Nat,
        countWalk g p dr dc fuel rr cc n lr lc =
          (n + k, walkLast rr cc dr dc lr lc k) ∧
        (∀ i : Nat, i < k → okCell g p (rr + (i : Int) * dr) (cc + (i : Int) * dc)) ∧
        ¬ okCell g p (rr + (k : Int) * dr) (cc + (k : Int) * dc) := by
  intro fuel
  induction fuel with
  | zero =>
    intro rr cc n lr lc hfar
    refine ⟨0, by simp [countWalk, walkLast], ?_, ?_⟩
    · intro i hi
      exact absurd hi (Nat.not_lt_zero i)
    · simpa using hfar 0 (le_refl 0)
  | succ f ih =>
    intro rr cc n lr lc hfar
    by_cases hok : okCell g p rr cc
    · have hfar' : ∀ i : Nat, f ≤ i →
          ¬ okCell g p ((rr + dr) + (i : Int) * dr) ((cc + dc) + (i : Int) * dc) := by
        intro i hi
        have h2 := hfar (i + 1) (by omega)
        push_cast at h2
        have e1 : rr + ((i : Int) + 1) * dr = rr + dr + (i : Int) * dr := by ring
        have e2 : cc + ((i : Int) + 1) * dc = cc + dc + (i : Int) * dc := by ring
        rw [e1, e2] at h2
        exact h2
      obtain ⟨k, hk1, hk2, hk3⟩ := ih (rr + dr) (cc + dc) (n + 1) rr cc hfar'
      refine ⟨k + 1, ?_, ?_, ?_⟩
      · simp only [countWalk, if_pos hok]
        rw [hk1]
        have hfst : n + 1 + k = n + (k + 1) := by omega
        have hsnd : walkLast (rr + dr) (cc + dc) dr dc rr cc k =
            walkLast rr cc dr dc lr lc (k + 1) := by
          cases k with
          | zero => simp [walkLast]
          | succ j =>
            simp only [walkLast, Prod.mk.injEq]
            push_cast
            constructor <;> ring
        rw [hfst, hsnd]
      · intro i hi
        cases i with
        | zero => simpa using hok
        | succ j =>
          have hj := hk2 j (by omega)
          have e1 : rr + dr + (j : Int) * dr = rr + ((j : Int) + 1) * dr := by ring
          have e2 : cc + dc + (j : Int) * dc = cc + ((j : Int) + 1) * dc := by ring
          rw [e1, e2] at hj
          push_cast
          exact hj
      · have hj := hk3
        have e1 : rr + dr + (k : Int) * dr = rr + ((k : Int) + 1) * dr := by ring
        have e2 : cc + dc + (k : Int) * dc = cc + ((k : Int) + 1) * dc := by ring
        rw [e1, e2] at hj
        push_cast
        exact hj
    · refine ⟨0, by simp [countWalk, if_neg hok, walkLast], ?_, ?_⟩
      · intro i hi
        exact absurd hi (Nat.not_lt_zero i)
      · simpa using hok

theorem count_and_last_char (g : Game) (p : Cell) (r c dr dc : Int)
    (hfar : ∀ i : Nat, g.rows * g.cols + 1 ≤ i →
      ¬ okCell g p (r + ((i : Int) + 1) * dr) (c + ((i : Int) + 1) * dc)) :
    ∃ k : Nat,
      count_and_last g p r c dr dc = (k, r + (k : Int) * dr, c + (k : Int) * dc) ∧
      FwdChar g p r c dr dc k := by
  have hfar' : ∀ i : Nat, g.rows * g.cols + 1 ≤ i →
      ¬ okCell g p ((r + dr) + (i : Int) * dr) ((c + dc) + (i : Int) * dc) := by
    intro i hi
    have h2 := hfar i hi
    have e1 : r + ((i : Int) + 1) * dr = r + dr + (i : Int) * dr := by ring
    have e2 : c + ((i : Int) + 1) * dc = c + dc + (i : Int) * dc := by ring
    rw [e1, e2] at h2
    exact h2
  obtain ⟨k, hk1, hk2, hk3⟩ := countWalk_char g p dr dc (g.rows * g.cols + 1)
    (r + dr) (c + dc) 0 r c hfar'
  refine ⟨k, ?_, ?_, ?_⟩
  · unfold count_and_last
    rw [hk1]
    have h0 : 0 + k = k := by omega
    have hwl : walkLast (r + dr) (c + dc) dr dc r c k =
        (r + (k : Int) * dr, c + (k : Int) * dc) := by
      cases k with
      | zero => simp [walkLast]
      | succ j =>
        simp only [walkLast, Prod.mk.injEq]
        push_cast
        constructor <;> ring
    rw [h0, hwl]
  · intro i h1 h2
    obtain ⟨j, rfl⟩ : ∃ j, i = j + 1 := ⟨i - 1, by omega⟩
    have hj := hk2 j (by omega)
    have e1 : r + dr + (j : Int) * dr = r + ((j : Int) + 1) * dr := by ring
    have e2 : c + dc + (j : Int) * dc = c + ((j : Int) + 1) * dc := by ring
    rw [e1, e2] at hj
    push_cast
    exact hj
  · have hj := hk3
    have e1 : r + dr + (k : Int) * dr = r + ((k : Int) + 1) * dr := by ring
    have e2 : c + dc + (k : Int) * dc = c + ((k : Int) + 1) * dc := by ring
    rw [e1, e2] at hj
    exact hj

theorem fwdChar_unique (g : Game) (p : Cell) (r c dr dc : Int) (k k' : Nat)
    (h1 : FwdChar g p r c dr dc k) (h2 : FwdChar g p r c dr dc k') : k = k' := by
  by_contra hne
  rcases Nat.lt_or_ge k k' with h | h
  · have hok := h2.1 (k + 1) (by omega) (by omega)
    push_cast at hok
    exact h1.2 hok
  · have hlt : k' < k := by omega
    have hok := h1.1 (k' + 1) (by omega) (by omega)
    push_cast at hok
    exact h2.2 hok

theorem okCell_far (g : Game) (p : Cell) (h6 : g.rows = 6) (h7 : g.cols = 7)
    (r c dr dc : Int) (hdr : dr = -1 ∨ dr = 0 ∨ dr = 1)
    (hdc : dc = -1 ∨ dc = 0 ∨ dc = 1) (hne : ¬(dr = 0 ∧ dc = 0))
    (hr0 : -1 ≤ r) (hr1 : r ≤ 6) (hc0 : -1 ≤ c) (hc1 : c ≤ 7) :
    ∀ m : Nat, 43 ≤ m → ¬ okCell g p (r + (m : Int) * dr) (c + (m : Int) * dc) := by
  intro m hm hok
  obtain ⟨o1, o2, o3, o4, -⟩ := hok
  rw [h6] at o2
  rw [h7] at o4
  have hm' : (43 : Int) ≤ (m : Int) := by exact_mod_cast hm
  rcases hdr with rfl | rfl | rfl <;> rcases hdc with rfl | rfl | rfl
  · omega
  · omega
  · omega
  · omega
  · exact hne ⟨rfl, rfl⟩
  · omega
  · omega
  · omega
  · omega

theorem spanOf_qualifies (g : Game) (p : Cell) (r c : Int) (d : Int × Int)
    (res : (Int × Int) × (Int × Int)) (h : SpanOf g p r c d res) :
    Qualifies g p r c d := by
  obtain ⟨kf, kb, h1, h2, h3, -⟩ := h
  exact ⟨kf, kb, h1, h2, h3⟩

theorem checkDir_char (g : Game) (p : Cell) (r c dr dc : Int)
    (h6 : g.rows = 6) (h7 : g.cols = 7)
    (hdr : dr = -1 ∨ dr = 0 ∨ dr = 1) (hdc : dc = -1 ∨ dc = 0 ∨ dc = 1)
    (hne : ¬(dr = 0 ∧ dc = 0))
    (hr0 : 0 ≤ r) (hr1 : r < 6) (hc0 : 0 ≤ c) (hc1 : c < 7) :
    (checkDir g p r c dr dc = none ↔ ¬ Qualifies g p r c (dr, dc)) ∧
    (∀ res, checkDir g p r c dr dc = some res → SpanOf g p r c (dr, dc) res) := by
  have hfarf : ∀ i : Nat, g.rows * g.cols + 1 ≤ i →
      ¬ okCell g p (r + ((i : Int) + 1) * dr) (c + ((i : Int) + 1) * dc) := by
    intro i hi
    rw [h6, h7] at hi
    have hfar := okCell_far g p h6 h7 r c dr dc hdr hdc hne
      (by omega) (by omega) (by omega) (by omega) (i + 1) (by omega)
    push_cast at hfar
    exact hfar
  have hdr' : -dr = -1 ∨ -dr = 0 ∨ -dr = 1 := by
    rcases hdr with rfl | rfl | rfl <;> norm_num
  have hdc' : -dc = -1 ∨ -dc = 0 ∨ -dc = 1 := by
    rcases hdc with rfl | rfl | rfl <;> norm_num
  have hne' : ¬(-dr = 0 ∧ -dc = 0) := by
    rintro ⟨a, b⟩
    exact hne ⟨by omega, by omega⟩
  have hfarb : ∀ i : Nat, g.rows * g.cols + 1 ≤ i →
      ¬ okCell g p (r + ((i : Int) + 1) * -dr) (c + ((i : Int) + 1) * -dc) := by
    intro i hi
    rw [h6, h7] at hi
    have hfar := okCell_far g p h6 h7 r c (-dr) (-dc) hdr' hdc' hne'
      (by omega) (by omega) (by omega) (by omega) (i + 1) (by omega)
    push_cast at hfar
    exact hfar
  obtain ⟨kf, hkfe, hkfc⟩ := count_and_last_char g p r c dr dc hfarf
  obtain ⟨kb, hkbe, hkbc⟩ := count_and_last_char g p r c (-dr) (-dc) hfarb
  have hbody : checkDir g p r c dr dc =
      if 1 + kf + kb ≥ 4 then
        some ((r + (kb : Int) * -dr, c + (kb : Int) * -dc),
              (r + (kf : Int) * dr, c + (kf : Int) * dc))
      else none := by
    simp only [checkDir]
    rw [hkfe, hkbe]
  refine ⟨⟨?_, ?_⟩, ?_⟩
  · intro hnone hQ
    obtain ⟨kf', kb', q1, q2, q3⟩ := hQ
    have e1 : kf' = kf := fwdChar_unique g p r c dr dc kf' kf q1 hkfc
    have e2 : kb' = kb := fwdChar_unique g p r c (-dr) (-dc) kb' kb q2 hkbc
    rw [e1, e2] at q3
    rw [hbody, if_pos q3] at hnone
    exact absurd hnone (by simp)
  · intro hnQ
    rw [hbody, if_neg]
    intro hge
    exact hnQ ⟨kf, kb, hkfc, hkbc, hge⟩
  · intro res hres
    rw [hbody] at hres
    by_cases hge : 1 + kf + kb ≥ 4
    · rw [if_pos hge] at hres
      have hr' := Option.some_inj.mp hres
      refine ⟨kf, kb, hkfc, hkbc, hge, ?_⟩
      rw [← hr']
      have ea : r + (kb : Int) * -dr = r - (kb : Int) * dr := by ring
      have eb : c + (kb : Int) * -dc = c - (kb : Int) * dc := by ring
      rw [ea, eb]
    · rw [if_neg hge] at hres
      exact absurd hres (by simp)

/-! ### Claim C1: the win detector -/

/-- Claim C1: invoked on an in-bounds, non-empty just-placed cell, the
detector tries the directions in the fixed order
`(0,1), (1,0), (1,1), (1,-1)`.  For each direction it counts the
consecutive same-owner cells walking outward forward and backward from
the placed cell (`FwdChar` pins those counts down uniquely); it returns
`none` exactly when no direction satisfies
`1 + forwardCount + backwardCount >= 4`, and otherwise stops at the
first qualifying direction and reports the furthest backward-matching
cell and the furthest forward-matching cell as the endpoints — so a run
longer than four is spanned entirely (`SpanOf`). -/
theorem c1_win_detector (g : Game) (r c : Int)
    (h6 : g.rows = 6) (h7 : g.cols = 7)
    (hr0 : 0 ≤ r) (hr1 : r < 6) (hc0 : 0 ≤ c) (hc1 : c < 7)
    (hp : getCell g.board r c ≠ -1) :
    (winning_span g r c = none ↔
      (¬ Qualifies g (getCell g.board r c) r c (0, 1) ∧
       ¬ Qualifies g (getCell g.board r c) r c (1, 0) ∧
       ¬ Qualifies g (getCell g.board r c) r c (1, 1) ∧
       ¬ Qualifies g (getCell g.board r c) r c (1, -1))) ∧
    (∀ res, winning_span g r c = some res →
      (SpanOf g (getCell g.board r c) r c (0, 1) res ∨
       (¬ Qualifies g (getCell g.board r c) r c (0, 1) ∧
        SpanOf g (getCell g.board r c) r c (1, 0) res) ∨
       (¬ Qualifies g (getCell g.board r c) r c (0, 1) ∧
        ¬ Qualifies g (getCell g.board r c) r c (1, 0) ∧
        SpanOf g (getCell g.board r c) r c (1, 1) res) ∨
       (¬ Qualifies g (getCell g.board r c) r c (0, 1) ∧
        ¬ Qualifies g (getCell g.board r c) r c (1, 0) ∧
        ¬ Qualifies g (getCell g.board r c) r c (1, 1) ∧
        SpanOf g (getCell g.board r c) r c (1, -1) res))) := by
  set p := getCell g.board r c with hpdef
  have D1 := checkDir_char g p r c 0 1 h6 h7 (by norm_num) (by norm_num)
    (by simp) hr0 hr1 hc0 hc1
  have D2 := checkDir_char g p r c 1 0 h6 h7 (by norm_num) (by norm_num)
    (by simp) hr0 hr1 hc0 hc1
  have D3 := checkDir_char g p r c 1 1 h6 h7 (by norm_num) (by norm_num)
    (by simp) hr0 hr1 hc0 hc1
  have D4 := checkDir_char g p r c 1 (-1) h6 h7 (by norm_num) (by norm_num)
    (by simp) hr0 hr1 hc0 hc1
  have hws : winning_span g r c =
      match checkDir g p r c 0 1 with
      | some s => some s
      | none =>
        match checkDir g p r c 1 0 with
        | some s => some s
        | none =>
          match checkDir g p r c 1 1 with
          | some s => some s
          | none => checkDir g p r c 1 (-1) := by
    simp only [winning_span, ← hpdef, if_neg hp]
  rcases e1 : checkDir g p r c 0 1 with _ | s1
  · rcases e2 : checkDir g p r c 1 0 with _ | s2
    · rcases e3 : checkDir g p r c 1 1 with _ | s3
      · rcases e4 : checkDir g p r c 1 (-1) with _ | s4
        · rw [e1, e2, e3, e4] at hws
          constructor
          · rw [hws]
            constructor
            · intro _
              exact ⟨D1.1.mp e1, D2.1.mp e2, D3.1.mp e3, D4.1.mp e4⟩
            · intro _
              rfl
          · intro res hres
            rw [hws] at hres
            exact absurd hres (by simp)
        · rw [e1, e2, e3, e4] at hws
          constructor
          · rw [hws]
            constructor
            · intro habs
              exact absurd habs (by simp)
            · rintro ⟨-, -, -, hq4⟩
              exact absurd (spanOf_qualifies g p r c (1, -1) s4 (D4.2 s4 e4)) hq4
          · intro res hres
            rw [hws] at hres
            have hr' := Option.some_inj.mp hres
            rw [← hr']
            exact Or.inr (Or.inr (Or.inr
              ⟨D1.1.mp e1, D2.1.mp e2, D3.1.mp e3, D4.2 s4 e4⟩))
      · rw [e1, e2, e3] at hws
        constructor
        · rw [hws]
          constructor
          · intro habs
            exact absurd habs (by simp)
          · rintro ⟨-, -, hq3, -⟩
            exact absurd (spanOf_qualifies g p r c (1, 1) s3 (D3.2 s3 e3)) hq3
        · intro res hres
          rw [hws] at hres
          have hr' := Option.some_inj.mp hres
          rw [← hr']
          exact Or.inr (Or.inr (Or.inl ⟨D1.1.mp e1, D2.1.mp e2, D3.2 s3 e3⟩))
    · rw [e1, e2] at hws
      constructor
      · rw [hws]
        constructor
        · intro habs
          exact absurd habs (by simp)
        · rintro ⟨-, hq2, -, -⟩
          exact absurd (spanOf_qualifies g p r c (1, 0) s2 (D2.2 s2 e2)) hq2
      · intro res hres
        rw [hws] at hres
        have hr' := Option.some_inj.mp hres
        rw [← hr']
        exact Or.inr (Or.inl ⟨D1.1.mp e1, D2.2 s2 e2⟩)
  · rw [e1] at hws
    constructor
    · rw [hws]
      constructor
      · intro habs
        exact absurd habs (by simp)
      · rintro ⟨hq1, -, -, -⟩
        exact absurd (spanOf_qualifies g p r c (0, 1) s1 (D1.2 s1 e1)) hq1
    · intro res hres
      rw [hws] at hres
      have hr' := Option.some_inj.mp hres
      rw [← hr']
      exact Or.inl (D1.2 s1 e1)

/-- Closed instance of `c1_win_detector` on `winGame`, whose last move
placed player 0's disc at row 5, column 3, completing a horizontal
four. -/
theorem c1_win_detector_witness :
    (winning_span winGame 5 3 = none ↔
      (¬ Qualifies winGame (getCell winGame.board 5 3) 5 3 (0, 1) ∧
       ¬ Qualifies winGame (getCell winGame.board 5 3) 5 3 (1, 0) ∧
       ¬ Qualifies winGame (getCell winGame.board 5 3) 5 3 (1, 1) ∧
       ¬ Qualifies winGame (getCell winGame.board 5 3) 5 3 (1, -1))) ∧
    (∀ res, winning_span winGame 5 3 = some res →
      (SpanOf winGame (getCell winGame.board 5 3) 5 3 (0, 1) res ∨
       (¬ Qualifies winGame (getCell winGame.board 5 3) 5 3 (0, 1) ∧
        SpanOf winGame (getCell winGame.board 5 3) 5 3 (1, 0) res) ∨
       (¬ Qualifies winGame (getCell winGame.board 5 3) 5 3 (0, 1) ∧
        ¬ Qualifies winGame (getCell winGame.board 5 3) 5 3 (1, 0) ∧
        SpanOf winGame (getCell winGame.board 5 3) 5 3 (1, 1) res) ∨
       (¬ Qualifies winGame (getCell winGame.board 5 3) 5 3 (0, 1) ∧
        ¬ Qualifies winGame (getCell winGame.board 5 3) 5 3 (1, 0) ∧
        ¬ Qualifies winGame (getCell winGame.board 5 3) 5 3 (1, 1) ∧
        SpanOf winGame (getCell winGame.board 5 3) 5 3 (1, -1) res))) :=
  c1_win_detector winGame 5 3 (by decide) (by decide) (by decide) (by decide)
    (by decide) (by decide) (by decide)
